import Mathlib

/-!
Verification of the structured-query interpreter and schema inferencer of the
googlesheet-automation repository (`src/app.py`).

The embedding models the two core functions:
* `generate_schema_definition` (app.py lines 62-78), and
* `execute_query` (app.py lines 82-148),

over an in-memory table.  A table cell is a Python scalar (string, int/float,
or bool); numbers are modelled by `Int`.  A row is a Python dict, modelled as
an association list; the table also records the DataFrame's column list
(`dataframe.columns`).  Python exceptions (`TypeError` from `>`/`<`/`in`/sort
comparisons on incompatible operands, `KeyError` from missing dict keys,
`IndexError` from `.iloc[0]` on an empty series) are modelled with `Except`.

Python-semantics notes reflected in the embedding:
* `bool` is a subclass of `int`, so `isinstance(v, (int, float))` is `true`
  for booleans, and `True == 1`, `False == 0`.
* `str.replace(old, new)` replaces every occurrence, not just a suffix.
* `list.sort(key=..., reverse=...)` is a stable sort; with `reverse=True`
  elements with equal keys still keep their original relative order.  A
  stable sort by a total preorder on keys is unique, so it is modelled by a
  stable insertion sort.  Sorting raises `TypeError` as soon as two
  incomparable keys are compared; for lists of two or more elements whose
  keys are not all numeric or all strings some comparison always fails,
  while lists of at most one element are never compared at all.
-/

/-- A Python scalar cell value: string, number (int/float), or boolean. -/
inductive Val where
  | vStr (s : String)
  | vNum (n : Int)
  | vBool (b : Bool)
deriving DecidableEq, Repr

/-- A value appearing in the `where` mapping of a structured query:
a scalar or a JSON array (used by `_in`). -/
inductive WVal where
  | scalar (v : Val)
  | arr (l : List Val)
deriving DecidableEq, Repr

/-- A row, i.e. one element of `dataframe.to_dict('records')`: a Python dict
from column name to cell value, modelled as an association list (first
binding wins, as Python dict keys are unique). -/
abbrev Row := List (String × Val)

/-- The in-memory table: the DataFrame's column list together with its rows. -/
structure Table where
  cols : List String
  rows : List Row
deriving DecidableEq, Repr

/-- The `orderBy` object of a structured query.  It is a JSON dict, so the
`column` and `direction` entries may each be missing (accessing a missing one
raises `KeyError`). -/
structure OrderBy where
  column : Option String
  direction : Option String
deriving DecidableEq, Repr

/-- A structured query as consumed by `execute_query`.  Each field is a dict
entry that may be absent; the `limit` entry may also be present but `None`. -/
structure Query where
  columns : Option (List String)
  whereC  : Option (List (String × WVal))
  orderBy : Option OrderBy
  limit   : Option (Option Int)
deriving DecidableEq, Repr

/-- Python exceptions that the modelled code can raise. -/
inductive PyErr where
  | typeError
  | keyError
  | indexError
deriving DecidableEq, Repr

/-- `item[k]` lookup in a row dict, as an `Option`. -/
def rowGet (r : Row) (k : String) : Option Val :=
  (r.find? (fun p => p.1 == k)).map (fun p => p.2)

/-- `k in item` for a row dict. -/
def hasKey (r : Row) (k : String) : Bool :=
  (rowGet r k).isSome

/-- `isinstance(v, (int, float))`.  Python `bool` is a subclass of `int`,
so booleans are numeric here. -/
def isNum : Val → Bool
  | .vNum _ => true
  | .vBool _ => true
  | .vStr _ => false

/-- `isinstance(v, bool)`. -/
def isBool : Val → Bool
  | .vBool _ => true
  | _ => false

/-- The numeric value of a numeric scalar (`True` is 1, `False` is 0).
Junk value 0 on strings; only used under an `isNum` guard. -/
def numOf : Val → Int
  | .vNum n => n
  | .vBool b => if b then 1 else 0
  | .vStr _ => 0

/-- A single-quote character as a string (used in messages the code builds). -/
def sQuote : String := String.singleton (Char.ofNat 39)

/-- Python `==` on scalars: equal only within a type, except that booleans
compare equal to the numbers 1 and 0. -/
def pyEq : Val → Val → Bool
  | .vStr a, .vStr b => a == b
  | .vNum a, .vNum b => a == b
  | .vBool a, .vBool b => a == b
  | .vBool a, .vNum b => (if a then (1 : Int) else 0) == b
  | .vNum a, .vBool b => a == (if b then (1 : Int) else 0)
  | _, _ => false

/-- Python `==` between a cell and a `where` value (a scalar never equals a
list). -/
def pyEqW (cell : Val) : WVal → Bool
  | .scalar v => pyEq cell v
  | .arr _ => false

/-- Python `str()` of a scalar. -/
def pyStr : Val → String
  | .vStr s => s
  | .vNum n => toString n
  | .vBool b => if b then "True" else "False"

/-- Python `repr()` of a scalar (strings get quotes), used inside `str()` of
a list. -/
def pyRepr : Val → String
  | .vStr s => sQuote ++ s ++ sQuote
  | v => pyStr v

/-- Python `str()` of a `where` value. -/
def pyStrW : WVal → String
  | .scalar v => pyStr v
  | .arr l => "[" ++ String.intercalate ", " (l.map pyRepr) ++ "]"

/-- Does `n` occur at the head of `h`? (needle/haystack on char lists). -/
def leadEq : List Char → List Char → Bool
  | [], _ => true
  | _ :: _, [] => false
  | a :: as, b :: bs => a == b && leadEq as bs

/-- Python substring test `n in h` on char lists (empty needle matches). -/
def subSearch (n : List Char) : List Char → Bool
  | [] => leadEq n []
  | c :: t => leadEq n (c :: t) || subSearch n t

/-- Python `n in h` for strings: substring containment. -/
def pyInStr (n h : String) : Bool :=
  subSearch n.data h.data

/-- Python `s.endswith(post)`. -/
def pyEndsWith (s post : String) : Bool :=
  leadEq post.data.reverse s.data.reverse

/-- Python `s.replace(pat, '')` for non-empty `pat`: scan left to right
removing every non-overlapping occurrence.  The scanned list's length is
used as structural fuel (each step consumes at least one character, so the
fuel never runs out on the initial call). -/
def pyReplaceGo (pat : List Char) : Nat → List Char → List Char
  | _, [] => []
  | 0, h => h
  | f + 1, c :: t =>
    if leadEq pat (c :: t) then pyReplaceGo pat f (List.drop (pat.length - 1) t)
    else c :: pyReplaceGo pat f t

/-- Python `s.replace(pat, '')`. -/
def pyReplace (s pat : String) : String :=
  ⟨pyReplaceGo pat.data s.data.length s.data⟩

/-- `item[col] > value` (resp. `<`) where `item[col]` is already known to be
numeric.  Python raises `TypeError` when the right operand is a string or a
list. -/
def pyGtNum (cell : Val) : WVal → Except PyErr Bool
  | .scalar v => if isNum v then .ok (decide (numOf cell > numOf v)) else .error .typeError
  | .arr _ => .error .typeError

/-- `item[col] < value` with `item[col]` numeric. -/
def pyLtNum (cell : Val) : WVal → Except PyErr Bool
  | .scalar v => if isNum v then .ok (decide (numOf cell < numOf v)) else .error .typeError
  | .arr _ => .error .typeError

/-- `item[col] in value`.  For a list value this is membership via `==`;
for a string value it is substring containment and requires a string left
operand; for a number or boolean value Python raises `TypeError`. -/
def pyMem (cell : Val) : WVal → Except PyErr Bool
  | .arr l => .ok (l.any (fun v => pyEq cell v))
  | .scalar (.vStr s) =>
    match cell with
    | .vStr c => .ok (pyInStr c s)
    | _ => .error .typeError
  | .scalar _ => .error .typeError

/-- One iteration of the `for key, value in structured_query["where"].items()`
loop body of `execute_query` (app.py lines 90-117): evaluate the predicate
encoded by `key` on `item`.  `.ok true` means the condition held, `.ok false`
means `match` was set to `False` (and the loop breaks). -/
def evalPred (item : Row) (key : String) (value : WVal) : Except PyErr Bool :=
  if pyEndsWith key "_gt" then
    -- col = key.replace('_gt', '') — replaces every occurrence
    match rowGet item (pyReplace key "_gt") with
    | some cell => if isNum cell then pyGtNum cell value else .ok false
    | none => .ok false
  else if pyEndsWith key "_lt" then
    match rowGet item (pyReplace key "_lt") with
    | some cell => if isNum cell then pyLtNum cell value else .ok false
    | none => .ok false
  else if pyEndsWith key "_contains" then
    match rowGet item (pyReplace key "_contains") with
    | some (.vStr c) => .ok (pyInStr (pyStrW value).toLower c.toLower)
    | _ => .ok false
  else if pyEndsWith key "_in" then
    match rowGet item (pyReplace key "_in") with
    | some cell => pyMem cell value
    | none => .ok false
  else if key == "logical_operator" then
    .ok true  -- `continue`: handled implicitly by ANDing conditions
  else
    -- exact match
    match rowGet item key with
    | some cell => .ok (pyEqW cell value)
    | none => .ok false

/-- The whole `for key, value in ...` loop for one row: conjunction with
short-circuit on the first failing predicate (`break`). -/
def evalRow (item : Row) : List (String × WVal) → Except PyErr Bool
  | [] => .ok true
  | (k, v) :: rest =>
    match evalPred item k v with
    | .error e => .error e
    | .ok true => evalRow item rest
    | .ok false => .ok false

/-- The `for item in results` filtering loop (app.py lines 87-120). -/
def filterRows (wh : List (String × WVal)) : List Row → Except PyErr (List Row)
  | [] => .ok []
  | r :: rs =>
    match evalRow r wh with
    | .error e => .error e
    | .ok b =>
      match filterRows wh rs with
      | .error e => .error e
      | .ok rest => .ok (if b then r :: rest else rest)

/-- The WHERE stage: applied only when `"where"` is present and the dict is
non-empty (Python truthiness). -/
def stageFilter (q : Query) (rows : List Row) : Except PyErr (List Row) :=
  match q.whereC with
  | some wh => if wh.isEmpty then .ok rows else filterRows wh rows
  | none => .ok rows

/-- Lexicographic strict comparison of char lists by code point, which is
Python's `<` on strings. -/
def charsLt : List Char → List Char → Bool
  | [], [] => false
  | [], _ :: _ => true
  | _ :: _, [] => false
  | a :: as, b :: bs =>
    if a.toNat < b.toNat then true
    else if b.toNat < a.toNat then false
    else charsLt as bs

/-- Python `<` between sort keys `x.get(column)` (`None` for a missing
column).  Defined (`true`/`false`) only on pairs Python can compare: two
numerics or two strings; any other pair of keys would raise, which the sort
wrapper `pySort` accounts for, so here those pairs yield the junk value
`false`. -/
def keyLtAsc : Option Val → Option Val → Bool
  | some (.vStr a), some (.vStr b) => charsLt a.data b.data
  | some x, some y => if isNum x && isNum y then decide (numOf x < numOf y) else false
  | _, _ => false

/-- Strict "comes before" order on rows used by the sort: ascending key
order, or its flip for `reverse=True`. -/
def rowLt (col : String) (desc : Bool) (a b : Row) : Bool :=
  if desc then keyLtAsc (rowGet b col) (rowGet a col)
  else keyLtAsc (rowGet a col) (rowGet b col)

/-- Stable insertion: `x` is placed before the first element not strictly
below it, hence after all strictly-smaller elements and before all equal
ones. -/
def insertS (lt : α → α → Bool) (x : α) : List α → List α
  | [] => [x]
  | y :: ys => if lt y x then y :: insertS lt x ys else x :: y :: ys

/-- Stable insertion sort: later input elements are inserted after equal
earlier ones, so relative order of equal elements is preserved.  Any stable
sort by the same total preorder (in particular CPython's timsort) produces
the same list. -/
def isortS (lt : α → α → Bool) : List α → List α
  | [] => []
  | x :: xs => insertS lt x (isortS lt xs)

/-- A present, numeric sort key (Python can compare any two of these). -/
def kindNum : Option Val → Bool
  | some v => isNum v
  | none => false

/-- A present, string sort key (Python can compare any two of these). -/
def kindStr : Option Val → Bool
  | some (.vStr _) => true
  | _ => false

/-- Are these sort keys mutually comparable in Python (no `TypeError`)?
They are iff all are present-and-numeric or all are present-and-string:
`None` compares with nothing (not even itself) and strings do not compare
with numbers. -/
def sortableKeys (ks : List (Option Val)) : Bool :=
  ks.all kindNum || ks.all kindStr

/-- `results.sort(key=lambda x: x.get(column), reverse=(direction == 'DESC'))`
(app.py line 128).  With at most one element no comparison happens; otherwise
Python's comparison raises `TypeError` unless the keys are mutually
comparable, in which case the result is the unique stable sort. -/
def pySort (rows : List Row) (col : String) (desc : Bool) : Except PyErr (List Row) :=
  if rows.length ≤ 1 then .ok rows
  else if sortableKeys (rows.map (fun r => rowGet r col)) then
    .ok (isortS (rowLt col desc) rows)
  else .error .typeError

/-- The warning text `st.warning` receives for a non-existent sort column
(app.py line 130). -/
def warnMsg (col : String) : String :=
  "Warning: Cannot sort by non-existent column " ++ sQuote ++ col ++ sQuote ++ "."

/-- The ORDER BY stage (app.py lines 122-130).  Returns the emitted warnings
together with the rows.  The `orderBy` dict is consulted only when present
and truthy (non-empty); `["column"]` and `["direction"]` lookups raise
`KeyError` when missing; a column absent from `dataframe.columns` only warns
and skips sorting. -/
def stageOrder (q : Query) (t : Table) (rows : List Row) :
    Except PyErr (List String × List Row) :=
  match q.orderBy with
  | none => .ok ([], rows)
  | some ob =>
    if ob.column = none ∧ ob.direction = none then .ok ([], rows)
    else
      match ob.column with
      | none => .error .keyError
      | some col =>
        match ob.direction with
        | none => .error .keyError
        | some dir =>
          if t.cols.contains col then
            match pySort rows col (dir == "DESC") with
            | .ok rs => .ok ([], rs)
            | .error e => .error e
          else
            .ok ([warnMsg col], rows)

/-- Keep the first occurrence of each name among those not in `seen`. -/
def dedupGo (seen : List String) : List String → List String
  | [] => []
  | c :: cs => if seen.contains c then dedupGo seen cs else c :: dedupGo (c :: seen) cs

/-- Keep the first occurrence of each requested column name, as Python dict
assignment does when the same key is written twice. -/
def dedupFirst (cs : List String) : List String :=
  dedupGo [] cs

/-- `new_item` built by the projection loop (app.py lines 136-141): the
requested columns in request order, each included only when present in the
row. -/
def projectRow (cs : List String) (item : Row) : Row :=
  (dedupFirst cs).filterMap (fun c => (rowGet item c).map (fun v => (c, v)))

/-- The SELECT-columns stage (app.py lines 133-142): applied only when
`"columns"` is present, truthy (non-empty), and its first element is not
`'*'`. -/
def stageProject (q : Query) (rows : List Row) : List Row :=
  match q.columns with
  | none => rows
  | some [] => rows
  | some (c0 :: cs) =>
    if c0 == "*" then rows
    else rows.map (projectRow (c0 :: cs))

/-- Python slice `l[:n]`: the first `n` elements for `n ≥ 0`, and all but
the last `-n` elements for negative `n` (clamped at the empty list). -/
def pySlice (l : List Row) (n : Int) : List Row :=
  if 0 ≤ n then l.take n.toNat
  else l.take ((l.length : Int) + n).toNat

/-- The LIMIT stage (app.py lines 145-146): applied only when `"limit"` is
present and not `None`. -/
def stageLimit (q : Query) (rows : List Row) : List Row :=
  match q.limit with
  | some (some n) => pySlice rows n
  | _ => rows

/-- `execute_query(structured_query, dataframe)` (app.py lines 82-148):
filter, then order (collecting warnings), then project, then limit. -/
def execute_query (q : Query) (t : Table) : Except PyErr (List String × List Row) :=
  match stageFilter q t.rows with
  | .error e => .error e
  | .ok fr =>
    match stageOrder q t fr with
    | .error e => .error e
    | .ok (ws, sr) => .ok (ws, stageLimit q (stageProject q sr))

/-- `dataframe[col].dropna().iloc[0]` as an option: the first row holding a
non-missing value for `col`. -/
def firstNonNull (t : Table) (col : String) : Option Val :=
  t.rows.findSome? (fun r => rowGet r col)

/-- One `schema_parts` entry of `generate_schema_definition` (app.py lines
66-76).  `dataframe[col]` has one entry per row, so the `.empty` guard only
fires on a rowless frame; with rows present, `.dropna().iloc[0]` raises
`IndexError` when every value of the column is missing.  The
`isinstance(first_val, bool)` branch is kept as written, although it is
unreachable: `isinstance(first_val, (int, float))` is already true for
booleans. -/
def schemaLine (t : Table) (col : String) : Except PyErr String :=
  if t.rows.isEmpty then .ok ("- " ++ col ++ " (string)")
  else
    match firstNonNull t col with
    | none => .error .indexError
    | some v =>
      let ty :=
        if isNum v then "number"
        else if isBool v then "boolean"
        else "string"
      .ok ("- " ++ col ++ " (" ++ ty ++ ")")

/-- The `schema_parts` loop over `dataframe.columns`. -/
def schemaParts (t : Table) : List String → Except PyErr (List String)
  | [] => .ok []
  | c :: cs =>
    match schemaLine t c with
    | .error e => .error e
    | .ok l =>
      match schemaParts t cs with
      | .error e => .error e
      | .ok rest => .ok (l :: rest)

/-- `generate_schema_definition(dataframe)` (app.py lines 62-78).
`dataframe.empty` holds exactly when the frame has no rows. -/
def generate_schema_definition (t : Table) : Except PyErr String :=
  if t.rows.isEmpty then .ok "The database table is empty."
  else
    match schemaParts t t.cols with
    | .error e => .error e
    | .ok parts =>
      .ok ("The database has one table called " ++ sQuote ++ "products" ++ sQuote
        ++ " with the following schema:\n" ++ String.intercalate "\n" parts)

/-! ### Helper lemmas about the WHERE stage -/

/-- The `logical_operator` key always hits the `continue` branch: the
condition trivially holds, whatever the row and whatever its value. -/
theorem evalPred_logical_operator (r : Row) (v : WVal) :
    evalPred r "logical_operator" v = .ok true := rfl

/-- The per-row loop returns `true` exactly when every predicate of the
`where` mapping evaluates to `true` on that row. -/
theorem evalRow_ok_true_iff (r : Row) (wh : List (String × WVal)) :
    evalRow r wh = .ok true ↔ ∀ p ∈ wh, evalPred r p.1 p.2 = .ok true := by
  induction wh with
  | nil => simp [evalRow]
  | cons hd tl ih =>
    obtain ⟨k, v⟩ := hd
    cases h : evalPred r k v with
    | error e => simp [evalRow, h, List.forall_mem_cons]
    | ok b =>
      cases b with
      | true => simp [evalRow, h, List.forall_mem_cons, ih]
      | false => simp [evalRow, h, List.forall_mem_cons]

/-- If the filtering loop terminates without an exception, a row is in its
output exactly when it is an input row on which every predicate holds. -/
theorem filterRows_ok_mem (wh : List (String × WVal)) :
    ∀ (rows out : List Row), filterRows wh rows = .ok out →
      ∀ r : Row, r ∈ out ↔ r ∈ rows ∧ evalRow r wh = .ok true := by
  intro rows
  induction rows with
  | nil =>
    intro out h r
    simp only [filterRows] at h
    cases h
    simp
  | cons x xs ih =>
    intro out h r
    simp only [filterRows] at h
    cases h1 : evalRow x wh with
    | error e => rw [h1] at h; cases h
    | ok b =>
      rw [h1] at h
      cases h2 : filterRows wh xs with
      | error e => rw [h2] at h; cases h
      | ok rest =>
        rw [h2] at h
        have hout : out = if b then x :: rest else rest := by
          cases b <;> exact (Except.ok.inj h).symm
        subst hout
        cases b with
        | false =>
          simp only [Bool.false_eq_true, if_false]
          constructor
          · intro hm
            obtain ⟨hm', he⟩ := (ih rest h2 r).1 hm
            exact ⟨List.mem_cons.mpr (Or.inr hm'), he⟩
          · rintro ⟨hm, he⟩
            rcases List.mem_cons.mp hm with rfl | hm'
            · exact absurd (h1.symm.trans he) (by simp)
            · exact (ih rest h2 r).2 ⟨hm', he⟩
        | true =>
          simp only [if_pos rfl]
          constructor
          · intro hm
            rcases List.mem_cons.mp hm with rfl | hm'
            · exact ⟨List.mem_cons_self _ _, h1⟩
            · obtain ⟨hm'', he⟩ := (ih rest h2 r).1 hm'
              exact ⟨List.mem_cons.mpr (Or.inr hm''), he⟩
          · rintro ⟨hm, he⟩
            rcases List.mem_cons.mp hm with rfl | hm'
            · exact List.mem_cons_self _ _
            · exact List.mem_cons.mpr (Or.inr ((ih rest h2 r).2 ⟨hm', he⟩))

/-- With a present, non-empty `where` dict the WHERE stage is exactly the
filtering loop. -/
theorem stageFilter_eq_filterRows (q : Query) (rows : List Row)
    (wh : List (String × WVal)) (hwh : q.whereC = some wh) (hne : wh ≠ []) :
    stageFilter q rows = filterRows wh rows := by
  cases wh with
  | nil => exact absurd rfl hne
  | cons a l => simp [stageFilter, hwh]

/-- C1.  With a present, non-empty `where` mapping, execute_query's
filtering is conjunctive: a table row survives the WHERE stage exactly when
it satisfies every predicate key independently, where a `logical_operator`
key imposes no constraint at all (its presence and value are inert).  When
the query has no `orderBy`, `columns`, or `limit` entry, execute_query's
output is exactly the WHERE stage's output. -/
theorem where_is_conjunction_and_logical_operator_inert
    (t : Table) (q : Query) (wh : List (String × WVal))
    (hwh : q.whereC = some wh) (hne : wh ≠ []) :
    (∀ out : List Row, stageFilter q t.rows = .ok out →
      ∀ r : Row, r ∈ out ↔ r ∈ t.rows ∧
        ∀ p ∈ wh, p.1 = "logical_operator" ∨ evalPred r p.1 p.2 = .ok true)
    ∧ (q.orderBy = none → q.columns = none → q.limit = none →
      execute_query q t =
        (stageFilter q t.rows).map (fun rs => (([] : List String), rs))) := by
  constructor
  · intro out hout r
    rw [stageFilter_eq_filterRows q t.rows wh hwh hne] at hout
    rw [filterRows_ok_mem wh t.rows out hout r, evalRow_ok_true_iff]
    constructor
    · rintro ⟨hm, hall⟩
      exact ⟨hm, fun p hp => Or.inr (hall p hp)⟩
    · rintro ⟨hm, hall⟩
      refine ⟨hm, fun p hp => ?_⟩
      rcases hall p hp with hlo | hok
      · have : evalPred r p.1 p.2 = evalPred r "logical_operator" p.2 := by rw [hlo]
        rw [this, evalPred_logical_operator]
      · exact hok
  · intro ho hc hl
    cases hf : stageFilter q t.rows with
    | error e => simp [execute_query, hf, Except.map]
    | ok fr =>
      simp [execute_query, hf, stageOrder, ho, stageProject, hc, stageLimit, hl,
        Except.map]

/-- Concrete instance of C1: table with rows `{a:1}` and `{a:2}`, query
`where {a_gt: 1, logical_operator: "OR"}`: the surviving row `{a:2}`
satisfies `a_gt` and the `logical_operator` entry is inert. -/
theorem where_is_conjunction_witness :
    [("a", Val.vNum 2)] ∈ ([[("a", Val.vNum 2)]] : List Row) ↔
      [("a", Val.vNum 2)] ∈
        (⟨["a"], [[("a", Val.vNum 1)], [("a", Val.vNum 2)]]⟩ : Table).rows ∧
        ∀ p ∈ [(("a_gt" : String), WVal.scalar (.vNum 1)),
               (("logical_operator" : String), WVal.scalar (.vStr "OR"))],
          p.1 = "logical_operator" ∨
            evalPred [("a", Val.vNum 2)] p.1 p.2 = .ok true :=
  (where_is_conjunction_and_logical_operator_inert
      ⟨["a"], [[("a", Val.vNum 1)], [("a", Val.vNum 2)]]⟩
      ⟨none, some [("a_gt", .scalar (.vNum 1)),
                   ("logical_operator", .scalar (.vStr "OR"))], none, none⟩
      [("a_gt", .scalar (.vNum 1)), ("logical_operator", .scalar (.vStr "OR"))]
      rfl (by decide)).1
    [[("a", Val.vNum 2)]] rfl [("a", Val.vNum 2)]

/-- C2 (code evaluated at the failing inputs).  A column whose first
non-missing value is a boolean is classified as `number`, because Python's
`bool` is a subclass of `int` and the `isinstance(first_val, (int, float))`
test fires first, making the `boolean` branch unreachable; and a non-empty
table with a column all of whose values are missing raises `IndexError`
(from `.dropna().iloc[0]`) instead of defaulting to `string`. -/
theorem schema_boolean_classified_as_number_and_all_missing_raises :
    generate_schema_definition ⟨["flag"], [[("flag", .vBool true)]]⟩ =
      .ok ("The database has one table called " ++ sQuote ++ "products" ++ sQuote
        ++ " with the following schema:\n- flag (number)")
    ∧ generate_schema_definition ⟨["x"], [[("y", .vNum 1)]]⟩ =
      .error .indexError := ⟨rfl, rfl⟩

/-- C3 counterexample.  With `columns = ["*", "a"]` — not absent and not the
single-element list `["*"]` — the code still skips projection because only
`columns[0] != '*'` is tested: the output row keeps the key `"b"`, which is
not among the requested columns, contradicting the claim that every output
row then contains only the requested columns. -/
theorem projection_star_first_skips_counterexample :
    execute_query ⟨some ["*", "a"], none, none, none⟩
        ⟨["a", "b"], [[("a", Val.vNum 1), ("b", Val.vNum 2)]]⟩ =
      .ok ([], [[("a", Val.vNum 1), ("b", Val.vNum 2)]])
    ∧ ("b" ∉ (["*", "a"] : List String)) := ⟨rfl, by decide⟩

/-- C4 counterexample.  `key.replace('_gt', '')` removes every occurrence of
`_gt`, not just the suffix: for the key `"a_gt_b_gt"` the claim's column
(suffix stripped, i.e. `"a_gt_b"`) exists in the row, is numeric and
satisfies `5 > 3`, yet the predicate fails because the code looks up the
column `"a_b"`. -/
theorem gt_suffix_strip_counterexample :
    evalPred [("a_gt_b", Val.vNum 5)] "a_gt_b_gt" (.scalar (.vNum 3)) = .ok false
    ∧ "a_gt_b_gt".dropRight 3 = "a_gt_b"
    ∧ rowGet [("a_gt_b", Val.vNum 5)] "a_gt_b" = some (.vNum 5)
    ∧ ((5 : Int) > 3)
    ∧ pyReplace "a_gt_b_gt" "_gt" = "a_b" := ⟨rfl, rfl, rfl, by decide, rfl⟩

/-- C5 counterexample.  On two rows with equal sort keys, `DESC` output
equals the `ASC` output (Python's sort is stable even with `reverse=True`),
so it is not the reverse of the ascending order. -/
theorem desc_not_reverse_of_asc_counterexample :
    execute_query ⟨none, none, some ⟨some "k", some "DESC"⟩, none⟩
        ⟨["k", "n"], [[("k", Val.vNum 1), ("n", Val.vStr "a")],
                      [("k", Val.vNum 1), ("n", Val.vStr "b")]]⟩ =
      .ok ([], [[("k", Val.vNum 1), ("n", Val.vStr "a")],
                [("k", Val.vNum 1), ("n", Val.vStr "b")]])
    ∧ execute_query ⟨none, none, some ⟨some "k", some "ASC"⟩, none⟩
        ⟨["k", "n"], [[("k", Val.vNum 1), ("n", Val.vStr "a")],
                      [("k", Val.vNum 1), ("n", Val.vStr "b")]]⟩ =
      .ok ([], [[("k", Val.vNum 1), ("n", Val.vStr "a")],
                [("k", Val.vNum 1), ("n", Val.vStr "b")]])
    ∧ ([[("k", Val.vNum 1), ("n", Val.vStr "a")],
        [("k", Val.vNum 1), ("n", Val.vStr "b")]] : List Row).reverse ≠
        [[("k", Val.vNum 1), ("n", Val.vStr "a")],
         [("k", Val.vNum 1), ("n", Val.vStr "b")]] := ⟨rfl, rfl, by decide⟩

/-- C6 counterexample.  A perfectly well-shaped query (`orderBy` with both
`column` and `direction`, the column existing in the table) raises
`TypeError` on malformed *data*: the sort column holds a number in one row
and a string in another, and Python's sort comparison raises. -/
theorem wellshaped_query_raises_on_mixed_data_counterexample :
    execute_query ⟨none, none, some ⟨some "k", some "ASC"⟩, none⟩
      ⟨["k"], [[("k", Val.vNum 1)], [("k", Val.vStr "a")]]⟩ =
      .error .typeError := rfl

/-- C8 counterexample.  Python `==` identifies `True` with `1`: a cell
holding the boolean `True` passes the exact-match predicate against the
number `1`, although the two values have different types, contradicting the
claim that equality must hold "in both type and value". -/
theorem exact_match_bool_equals_num_counterexample :
    evalPred [("x", Val.vBool true)] "x" (.scalar (.vNum 1)) = .ok true
    ∧ Val.vBool true ≠ Val.vNum 1 := ⟨rfl, by decide⟩

/-- C9.  The LIMIT stage: no truncation when `limit` is absent or `None`;
for a present non-negative limit `n` the result is the first `n` rows of the
post-projection sequence, so `limit 0` gives the empty list and any limit at
least the row count leaves the sequence unchanged.  The last conjunct places
the stage inside execute_query: whenever filtering and ordering succeed, the
result is the limit stage applied to the projection of the ordered rows (no
error is possible past the ordering stage). -/
theorem limit_stage_semantics :
    (∀ (q : Query) (rows : List Row),
      q.limit = none ∨ q.limit = some none → stageLimit q rows = rows)
    ∧ (∀ (q : Query) (rows : List Row) (n : Int),
      q.limit = some (some n) → 0 ≤ n → stageLimit q rows = rows.take n.toNat)
    ∧ (∀ (q : Query) (rows : List Row),
      q.limit = some (some 0) → stageLimit q rows = [])
    ∧ (∀ (q : Query) (rows : List Row) (n : Int),
      q.limit = some (some n) → (rows.length : Int) ≤ n → stageLimit q rows = rows)
    ∧ (∀ (q : Query) (t : Table) (fr sr : List Row) (ws : List String),
      stageFilter q t.rows = .ok fr → stageOrder q t fr = .ok (ws, sr) →
      execute_query q t = .ok (ws, stageLimit q (stageProject q sr))) := by
  refine ⟨?_, ?_, ?_, ?_, ?_⟩
  · rintro q rows (h | h) <;> simp [stageLimit, h]
  · intro q rows n h hn
    simp [stageLimit, h, pySlice, hn]
  · intro q rows h
    simp [stageLimit, h, pySlice]
  · intro q rows n h hn
    have h0 : (0 : Int) ≤ n := le_trans (by positivity) hn
    have hlen : rows.length ≤ n.toNat := by omega
    simp [stageLimit, h, pySlice, h0, List.take_of_length_le hlen]
  · intro q t fr sr ws h1 h2
    simp [execute_query, h1, h2]

/-- Concrete instance of C9 on a two-row list: absent and null limits keep
both rows, limit 1 takes the first row, limit 0 gives nothing, limit 5 keeps
everything. -/
theorem limit_stage_semantics_witness :
    stageLimit ⟨none, none, none, none⟩ [[("a", Val.vNum 1)], [("a", Val.vNum 2)]] =
      [[("a", Val.vNum 1)], [("a", Val.vNum 2)]]
    ∧ stageLimit ⟨none, none, none, some none⟩
        [[("a", Val.vNum 1)], [("a", Val.vNum 2)]] =
      [[("a", Val.vNum 1)], [("a", Val.vNum 2)]]
    ∧ stageLimit ⟨none, none, none, some (some 1)⟩
        [[("a", Val.vNum 1)], [("a", Val.vNum 2)]] =
      ([[("a", Val.vNum 1)], [("a", Val.vNum 2)]] : List Row).take 1
    ∧ stageLimit ⟨none, none, none, some (some 0)⟩
        [[("a", Val.vNum 1)], [("a", Val.vNum 2)]] = []
    ∧ stageLimit ⟨none, none, none, some (some 5)⟩
        [[("a", Val.vNum 1)], [("a", Val.vNum 2)]] =
      [[("a", Val.vNum 1)], [("a", Val.vNum 2)]] :=
  ⟨limit_stage_semantics.1 _ _ (Or.inl rfl),
   limit_stage_semantics.1 _ _ (Or.inr rfl),
   limit_stage_semantics.2.1 _ _ 1 rfl (by decide),
   limit_stage_semantics.2.2.1 _ _ rfl,
   limit_stage_semantics.2.2.2.1 _ _ 5 rfl (by decide)⟩

/-- C10.  A present negative limit `-k` with `0 < k ≤` the row count is the
Python slice `rows[:-k]`: the code silently returns all but the last `k`
rows of the post-projection sequence and reports nothing. -/
theorem negative_limit_drops_last_rows (q : Query) (rows : List Row) (k : Nat)
    (hq : q.limit = some (some (-(k : Int)))) (hk : 0 < k)
    (hle : k ≤ rows.length) :
    stageLimit q rows = rows.take (rows.length - k)
    ∧ (stageLimit q rows).length = rows.length - k := by
  have hneg : ¬ ((0 : Int) ≤ -(k : Int)) := by omega
  have harith : (((rows.length : Int)) + -(k : Int)).toNat = rows.length - k := by
    omega
  constructor
  · simp [stageLimit, hq, pySlice, hneg, harith]
  · simp [stageLimit, hq, pySlice, hneg, harith, List.length_take]

/-- Concrete instance of C10: limit `-1` on two rows keeps only the first
row. -/
theorem negative_limit_drops_last_rows_witness :
    stageLimit ⟨none, none, none, some (some (-1))⟩
        [[("a", Val.vNum 1)], [("a", Val.vNum 2)]] =
      ([[("a", Val.vNum 1)], [("a", Val.vNum 2)]] : List Row).take 1
    ∧ (stageLimit ⟨none, none, none, some (some (-1))⟩
        [[("a", Val.vNum 1)], [("a", Val.vNum 2)]]).length = 1 :=
  negative_limit_drops_last_rows ⟨none, none, none, some (some (-1))⟩
    [[("a", Val.vNum 1)], [("a", Val.vNum 2)]] 1 rfl (by decide) (by decide)

/-- C4 amended.  For a key ending in `_gt` (resp. `_lt`, with `_gt` tested
first as in the code) and a numeric threshold, the predicate never raises
and holds exactly when the column named by removing *every* occurrence of
the operator substring from the key exists in the row, holds a numeric value
(Python booleans included, as `bool` is an `int` subclass), and satisfies
the strict inequality; in particular a missing column or a non-numeric
column value makes the predicate false rather than raising. -/
theorem gt_lt_predicate_semantics :
    (∀ (item : Row) (k : String) (v : Val),
      pyEndsWith k "_gt" = true → isNum v = true →
      evalPred item k (.scalar v) =
        .ok (match rowGet item (pyReplace k "_gt") with
             | some cell => isNum cell && decide (numOf cell > numOf v)
             | none => false))
    ∧ (∀ (item : Row) (k : String) (v : Val),
      pyEndsWith k "_gt" = false → pyEndsWith k "_lt" = true → isNum v = true →
      evalPred item k (.scalar v) =
        .ok (match rowGet item (pyReplace k "_lt") with
             | some cell => isNum cell && decide (numOf cell < numOf v)
             | none => false)) := by
  constructor
  · intro item k v hk hv
    simp only [evalPred, hk, if_true]
    cases hr : rowGet item (pyReplace k "_gt") with
    | none => rfl
    | some cell =>
      cases hc : isNum cell with
      | true => simp [pyGtNum, hv, hc]
      | false => simp [hc]
  · intro item k v hk1 hk2 hv
    simp only [evalPred, hk1, hk2, if_true, Bool.false_eq_true, if_false]
    cases hr : rowGet item (pyReplace k "_lt") with
    | none => rfl
    | some cell =>
      cases hc : isNum cell with
      | true => simp [pyLtNum, hv, hc]
      | false => simp [hc]

/-- Concrete instance of C4 (amended): `price_gt: 100` passes on a row with
`price: 150`, and `price_lt: 100` fails on it. -/
theorem gt_lt_predicate_semantics_witness :
    evalPred [("price", Val.vNum 150)] "price_gt" (.scalar (.vNum 100)) =
      .ok (match rowGet [("price", Val.vNum 150)] (pyReplace "price_gt" "_gt") with
           | some cell => isNum cell && decide (numOf cell > numOf (Val.vNum 100))
           | none => false)
    ∧ evalPred [("price", Val.vNum 150)] "price_lt" (.scalar (.vNum 100)) =
      .ok (match rowGet [("price", Val.vNum 150)] (pyReplace "price_lt" "_lt") with
           | some cell => isNum cell && decide (numOf cell < numOf (Val.vNum 100))
           | none => false) :=
  ⟨gt_lt_predicate_semantics.1 [("price", Val.vNum 150)] "price_gt"
      (.vNum 100) rfl rfl,
   gt_lt_predicate_semantics.2 [("price", Val.vNum 150)] "price_lt"
      (.vNum 100) rfl rfl rfl⟩

/-- C8 amended.  A key with no recognized operator suffix (and different
from `logical_operator`) is an exact-match predicate: it never raises, and
holds exactly when the column exists in the row and the row's value equals
the given value under Python `==`.  Python equality is reflexive and
symmetric here and never identifies a string with a number or boolean, and
a list value never equals a scalar cell; but it does identify the booleans
`True`/`False` with the numbers `1`/`0`, which is the one departure from
"equal in both type and value". -/
theorem exact_match_python_equality :
    (∀ (item : Row) (k : String) (v : WVal),
      pyEndsWith k "_gt" = false → pyEndsWith k "_lt" = false →
      pyEndsWith k "_contains" = false → pyEndsWith k "_in" = false →
      k ≠ "logical_operator" →
      evalPred item k v =
        .ok (match rowGet item k with
             | some cell => pyEqW cell v
             | none => false))
    ∧ (∀ a : Val, pyEq a a = true)
    ∧ (∀ a b : Val, pyEq a b = pyEq b a)
    ∧ (∀ (s : String) (n : Int), pyEq (.vStr s) (.vNum n) = false)
    ∧ (∀ (s : String) (b : Bool), pyEq (.vStr s) (.vBool b) = false)
    ∧ (∀ (b : Bool) (n : Int),
        pyEq (.vBool b) (.vNum n) = ((if b then (1 : Int) else 0) == n))
    ∧ (∀ (cell : Val) (l : List Val), pyEqW cell (.arr l) = false) := by
  refine ⟨?_, ?_, ?_, ?_, ?_, ?_, ?_⟩
  · intro item k v h1 h2 h3 h4 h5
    have h5' : (k == "logical_operator") = false := beq_false_of_ne h5
    simp only [evalPred, h1, h2, h3, h4, h5', Bool.false_eq_true, if_false]
    cases hr : rowGet item k with
    | none => rfl
    | some cell => rfl
  · intro a
    cases a <;> simp [pyEq]
  · intro a b
    cases a <;> cases b <;> simp [pyEq, beq_iff_eq] <;> exact eq_comm
  · intro s n; rfl
  · intro s b; rfl
  · intro b n; rfl
  · intro cell l; rfl

/-- Concrete instance of C8 (amended): `category: "Electronics"` matches a
row holding exactly that string and the evaluation is exception-free. -/
theorem exact_match_python_equality_witness :
    evalPred [("category", Val.vStr "Electronics")] "category"
        (.scalar (.vStr "Electronics")) =
      .ok (match rowGet [("category", Val.vStr "Electronics")] "category" with
           | some cell => pyEqW cell (.scalar (.vStr "Electronics"))
           | none => false)
    ∧ pyEq (Val.vStr "x") (Val.vStr "x") = true :=
  ⟨exact_match_python_equality.1 [("category", Val.vStr "Electronics")]
      "category" (.scalar (.vStr "Electronics")) rfl rfl rfl rfl (by decide),
   exact_match_python_equality.2.1 (Val.vStr "x")⟩

/-! ### Projection lemmas -/

/-- Membership in the deduplicated list: first occurrences of names not in
`seen`. -/
theorem mem_dedupGo (c : String) :
    ∀ (cs seen : List String), c ∈ dedupGo seen cs ↔ c ∈ cs ∧ c ∉ seen := by
  intro cs
  induction cs with
  | nil => intro seen; simp [dedupGo]
  | cons a l ih =>
    intro seen
    by_cases ha : a ∈ seen
    · have hc : seen.contains a = true := by simpa [List.contains] using ha
      simp only [dedupGo, hc, if_true, ih, List.mem_cons]
      constructor
      · rintro ⟨hm, hs⟩
        exact ⟨Or.inr hm, hs⟩
      · rintro ⟨rfl | hm, hs⟩
        · exact absurd ha hs
        · exact ⟨hm, hs⟩
    · have hc : seen.contains a = false := by simpa [List.contains] using ha
      simp only [dedupGo, hc, Bool.false_eq_true, if_false, List.mem_cons, ih]
      constructor
      · rintro (rfl | ⟨hm, hs⟩)
        · exact ⟨Or.inl rfl, ha⟩
        · refine ⟨Or.inr hm, fun hmem => hs ?_⟩
          simp [hmem]
      · rintro ⟨rfl | hm, hs⟩
        · exact Or.inl rfl
        · by_cases hca : c = a
          · exact Or.inl hca
          · refine Or.inr ⟨hm, fun hmem => ?_⟩
            rcases hmem with h1 | h2
            · exact hca h1
            · exact hs h2

/-- `dedupFirst` preserves membership. -/
theorem mem_dedupFirst (c : String) (cs : List String) :
    c ∈ dedupFirst cs ↔ c ∈ cs := by
  simp [dedupFirst, mem_dedupGo]

/-- On duplicate-free input `dedupGo` is the identity. -/
theorem dedupGo_eq_self :
    ∀ (cs seen : List String), cs.Nodup → (∀ x ∈ cs, x ∉ seen) →
      dedupGo seen cs = cs := by
  intro cs
  induction cs with
  | nil => intro seen _ _; rfl
  | cons a l ih =>
    intro seen hnd hdis
    have ha : seen.contains a = false := by
      simpa [List.contains] using hdis a (List.mem_cons_self a l)
    rw [dedupGo, ha]
    simp only [Bool.false_eq_true, if_false]
    rw [ih (a :: seen) (List.nodup_cons.mp hnd).2]
    intro x hx
    rw [List.mem_cons]
    rintro (rfl | hxs)
    · exact (List.nodup_cons.mp hnd).1 hx
    · exact hdis x (List.mem_cons.mpr (Or.inr hx)) hxs

/-- On duplicate-free input `dedupFirst` is the identity. -/
theorem dedupFirst_eq_self (cs : List String) (h : cs.Nodup) :
    dedupFirst cs = cs :=
  dedupGo_eq_self cs [] h (by simp)

/-- The keys of a projected row, in order. -/
theorem map_fst_filterMap_rowGet (item : Row) :
    ∀ cs : List String,
      ((cs.filterMap (fun c => (rowGet item c).map (fun v => (c, v)))).map
        Prod.fst) = cs.filter (fun c => (rowGet item c).isSome) := by
  intro cs
  induction cs with
  | nil => rfl
  | cons a l ih =>
    cases hr : rowGet item a with
    | none => simp [List.filterMap_cons, List.filter_cons, hr, ih]
    | some w => simp [List.filterMap_cons, List.filter_cons, hr, ih]

/-- C3 amended.  Projection is skipped exactly when `columns` is absent,
empty, or has `*` as its *first* element (the code only inspects
`columns[0]`); otherwise each output row is a fresh mapping built from the
requested columns: a pair is in the projected row iff its column was
requested and holds that value in the source row, a requested column absent
from the row is omitted (no padding, no error), and for duplicate-free
requests the keys appear exactly in the requested order, restricted to
those present. -/
theorem projection_semantics :
    (∀ (q : Query) (rows : List Row),
      q.columns = none ∨ q.columns = some [] ∨
        (∃ rest, q.columns = some ("*" :: rest)) →
      stageProject q rows = rows)
    ∧ (∀ (q : Query) (rows : List Row) (c0 : String) (cs : List String),
      q.columns = some (c0 :: cs) → c0 ≠ "*" →
      stageProject q rows = rows.map (projectRow (c0 :: cs)))
    ∧ (∀ (cs : List String) (item : Row) (c : String) (v : Val),
      (c, v) ∈ projectRow cs item ↔ c ∈ cs ∧ rowGet item c = some v)
    ∧ (∀ (cs : List String) (item : Row), cs.Nodup →
      (projectRow cs item).map Prod.fst =
        cs.filter (fun c => (rowGet item c).isSome)) := by
  refine ⟨?_, ?_, ?_, ?_⟩
  · rintro q rows (h | h | ⟨rest, h⟩) <;> simp [stageProject, h]
  · intro q rows c0 cs h hne
    have : (c0 == "*") = false := beq_false_of_ne hne
    simp [stageProject, h, this]
  · intro cs item c v
    constructor
    · intro hm
      obtain ⟨a, ha, hf⟩ := List.mem_filterMap.mp hm
      cases hr : rowGet item a with
      | none => rw [hr] at hf; cases hf
      | some w =>
        rw [hr] at hf
        obtain ⟨rfl, rfl⟩ : a = c ∧ w = v := by
          constructor <;> [exact congrArg Prod.fst (Option.some.inj hf);
            exact congrArg Prod.snd (Option.some.inj hf)]
        exact ⟨(mem_dedupFirst a cs).mp ha, hr⟩
    · rintro ⟨hc, hr⟩
      exact List.mem_filterMap.mpr ⟨c, (mem_dedupFirst c cs).mpr hc, by rw [hr]; rfl⟩
  · intro cs item hnd
    rw [projectRow, dedupFirst_eq_self cs hnd, map_fst_filterMap_rowGet]

/-- Concrete instance of C3 (amended): requesting `["name","price"]` from a
row lacking `price` yields exactly `{name: ...}` — the absent column is
omitted, the present one keeps its value, the keys follow request order. -/
theorem projection_semantics_witness :
    stageProject ⟨some ["name", "price"], none, none, none⟩
        [[("name", Val.vStr "W"), ("stock", Val.vNum 3)]] =
      [[("name", Val.vStr "W"), ("stock", Val.vNum 3)]].map
        (projectRow ["name", "price"])
    ∧ (("name", Val.vStr "W") ∈
        projectRow ["name", "price"] [("name", Val.vStr "W"), ("stock", Val.vNum 3)]
       ↔ "name" ∈ (["name", "price"] : List String) ∧
          rowGet [("name", Val.vStr "W"), ("stock", Val.vNum 3)] "name" =
            some (Val.vStr "W"))
    ∧ (projectRow ["name", "price"]
        [("name", Val.vStr "W"), ("stock", Val.vNum 3)]).map Prod.fst =
      (["name", "price"] : List String).filter
        (fun c => (rowGet [("name", Val.vStr "W"), ("stock", Val.vNum 3)] c).isSome) :=
  ⟨projection_semantics.2.1 ⟨some ["name", "price"], none, none, none⟩
      [[("name", Val.vStr "W"), ("stock", Val.vNum 3)]] "name" ["price"] rfl
      (by decide),
   projection_semantics.2.2.1 ["name", "price"]
      [("name", Val.vStr "W"), ("stock", Val.vNum 3)] "name" (Val.vStr "W"),
   projection_semantics.2.2.2 ["name", "price"]
      [("name", Val.vStr "W"), ("stock", Val.vNum 3)] (by decide)⟩

/-! ### Error-behaviour lemmas -/

/-- Predicate bindings whose evaluation is exception-free on every row:
`_gt`/`_lt` need a numeric scalar operand, `_in` needs a list operand,
`_contains`, `logical_operator` and exact-match keys are always safe. -/
def totalPred (k : String) (v : WVal) : Bool :=
  if pyEndsWith k "_gt" then (match v with | .scalar u => isNum u | .arr _ => false)
  else if pyEndsWith k "_lt" then (match v with | .scalar u => isNum u | .arr _ => false)
  else if pyEndsWith k "_contains" then true
  else if pyEndsWith k "_in" then (match v with | .arr _ => true | .scalar _ => false)
  else true

/-- A `totalPred` binding never raises, whatever the row data looks like:
missing columns and wrong-typed cells just yield `false` (or `true`). -/
theorem evalPred_total (k : String) (v : WVal) (hk : totalPred k v = true)
    (item : Row) : ∃ b, evalPred item k v = .ok b := by
  by_cases h1 : pyEndsWith k "_gt" = true
  · rw [totalPred.eq_def, if_pos h1] at hk
    cases v with
    | arr l => cases hk
    | scalar u =>
      have hku : isNum u = true := hk
      cases hr : rowGet item (pyReplace k "_gt") with
      | none => exact ⟨false, by simp [evalPred, h1, hr]⟩
      | some cell =>
        cases hc : isNum cell with
        | true =>
          exact ⟨decide (numOf cell > numOf u),
            by simp [evalPred, h1, hr, hc, pyGtNum, hku]⟩
        | false => exact ⟨false, by simp [evalPred, h1, hr, hc]⟩
  · rw [totalPred.eq_def, if_neg h1] at hk
    by_cases h2 : pyEndsWith k "_lt" = true
    · rw [if_pos h2] at hk
      cases v with
      | arr l => cases hk
      | scalar u =>
        have hku : isNum u = true := hk
        cases hr : rowGet item (pyReplace k "_lt") with
        | none => exact ⟨false, by simp [evalPred, h1, h2, hr]⟩
        | some cell =>
          cases hc : isNum cell with
          | true =>
            exact ⟨decide (numOf cell < numOf u),
              by simp [evalPred, h1, h2, hr, hc, pyLtNum, hku]⟩
          | false => exact ⟨false, by simp [evalPred, h1, h2, hr, hc]⟩
    · rw [if_neg h2] at hk
      by_cases h3 : pyEndsWith k "_contains" = true
      · cases hr : rowGet item (pyReplace k "_contains") with
        | none => exact ⟨false, by simp [evalPred, h1, h2, h3, hr]⟩
        | some cell =>
          cases cell with
          | vStr c =>
            exact ⟨pyInStr (pyStrW v).toLower c.toLower,
              by simp [evalPred, h1, h2, h3, hr]⟩
          | vNum n => exact ⟨false, by simp [evalPred, h1, h2, h3, hr]⟩
          | vBool b => exact ⟨false, by simp [evalPred, h1, h2, h3, hr]⟩
      · rw [if_neg h3] at hk
        by_cases h4 : pyEndsWith k "_in" = true
        · rw [if_pos h4] at hk
          cases v with
          | scalar u => cases hk
          | arr l =>
            cases hr : rowGet item (pyReplace k "_in") with
            | none => exact ⟨false, by simp [evalPred, h1, h2, h3, h4, hr]⟩
            | some cell =>
              exact ⟨l.any (fun w => pyEq cell w),
                by simp [evalPred, h1, h2, h3, h4, hr, pyMem]⟩
        · by_cases h5 : k = "logical_operator"
          · exact ⟨true, by rw [h5]; exact evalPred_logical_operator item v⟩
          · cases hr : rowGet item k with
            | none =>
              exact ⟨false,
                by simp [evalPred, h1, h2, h3, h4, beq_false_of_ne h5, hr]⟩
            | some cell =>
              exact ⟨pyEqW cell v,
                by simp [evalPred, h1, h2, h3, h4, beq_false_of_ne h5, hr]⟩

/-- A row of `totalPred` bindings is evaluated without exception. -/
theorem evalRow_total (wh : List (String × WVal))
    (hall : ∀ p ∈ wh, totalPred p.1 p.2 = true) (item : Row) :
    ∃ b, evalRow item wh = .ok b := by
  induction wh with
  | nil => exact ⟨true, rfl⟩
  | cons p ps ih =>
    obtain ⟨k, v⟩ := p
    obtain ⟨b, hb⟩ := evalPred_total k v (hall (k, v) (List.mem_cons_self _ _)) item
    cases b with
    | false => exact ⟨false, by simp [evalRow, hb]⟩
    | true =>
      obtain ⟨b', hb'⟩ := ih (fun p hp => hall p (List.mem_cons.mpr (Or.inr hp)))
      exact ⟨b', by simp [evalRow, hb, hb']⟩

/-- Filtering with `totalPred` bindings never raises, on any data. -/
theorem filterRows_total (wh : List (String × WVal))
    (hall : ∀ p ∈ wh, totalPred p.1 p.2 = true) :
    ∀ rows : List Row, ∃ out, filterRows wh rows = .ok out := by
  intro rows
  induction rows with
  | nil => exact ⟨[], rfl⟩
  | cons r rs ih =>
    obtain ⟨b, hb⟩ := evalRow_total wh hall r
    obtain ⟨rest, hrest⟩ := ih
    exact ⟨if b then r :: rest else rest, by simp [filterRows, hb, hrest]⟩

/-- C6 amended.  (a) A malformed query shape — `orderBy` present but missing
`column` or `direction` — raises `KeyError` (once filtering got through).
(b) Filtering is lenient towards malformed data: with exception-free
bindings (`totalPred`) the WHERE stage always succeeds, treating missing
columns and wrong-typed cells as non-matches.  (c) Projection and limiting
can never fail: whenever filtering and ordering succeed, execute_query
succeeds.  (The claim's "never raises on malformed data" does not hold of
the ordering stage or of ill-typed `_gt`/`_lt`/`_in` operands, see the
counterexample.) -/
theorem query_shape_errors_vs_data_leniency :
    (∀ (q : Query) (t : Table) (fr : List Row) (ob : OrderBy),
      stageFilter q t.rows = .ok fr → q.orderBy = some ob →
      ((ob.column = none ∧ ob.direction ≠ none) ∨
       (ob.column ≠ none ∧ ob.direction = none)) →
      execute_query q t = .error .keyError)
    ∧ (∀ (q : Query) (t : Table) (wh : List (String × WVal)),
      q.whereC = some wh → (∀ p ∈ wh, totalPred p.1 p.2 = true) →
      ∃ fr, stageFilter q t.rows = .ok fr)
    ∧ (∀ (q : Query) (t : Table) (fr sr : List Row) (ws : List String),
      stageFilter q t.rows = .ok fr → stageOrder q t fr = .ok (ws, sr) →
      ∃ res, execute_query q t = .ok res) := by
  refine ⟨?_, ?_, ?_⟩
  · intro q t fr ob hf ho hob
    have hord : stageOrder q t fr = .error .keyError := by
      obtain ⟨oc, od⟩ := ob
      rcases hob with ⟨hc, hd⟩ | ⟨hc, hd⟩
      · have hc' : oc = none := hc
        subst hc'
        cases od with
        | none => exact absurd rfl hd
        | some d => simp [stageOrder, ho]
      · have hd' : od = none := hd
        subst hd'
        cases oc with
        | none => exact absurd rfl hc
        | some c => simp [stageOrder, ho]
    simp [execute_query, hf, hord]
  · intro q t wh hwh hall
    cases wh with
    | nil => exact ⟨t.rows, by simp [stageFilter, hwh]⟩
    | cons p ps =>
      obtain ⟨out, hout⟩ := filterRows_total (p :: ps) hall t.rows
      refine ⟨out, ?_⟩
      rw [stageFilter_eq_filterRows q t.rows (p :: ps) hwh (by simp)]
      exact hout
  · intro q t fr sr ws h1 h2
    exact ⟨(ws, stageLimit q (stageProject q sr)), by simp [execute_query, h1, h2]⟩

/-- Concrete instance of C6 (amended): `orderBy = {direction: "ASC"}` (no
`column`) raises `KeyError`; a `where` over missing columns and wrong types
filters without raising; a full well-shaped pipeline succeeds. -/
theorem query_shape_errors_vs_data_leniency_witness :
    execute_query ⟨none, none, some ⟨none, some "ASC"⟩, none⟩
        ⟨["a"], [[("a", Val.vNum 1)]]⟩ = .error .keyError
    ∧ (∃ fr, stageFilter
        ⟨none, some [("ghost", .scalar (.vStr "x")),
                     ("a_gt", .scalar (.vNum 0)),
                     ("a_contains", .scalar (.vStr "q")),
                     ("a_in", .arr [.vNum 1]),
                     ("logical_operator", .scalar (.vStr "OR"))], none, none⟩
        (⟨["a"], [[("a", Val.vNum 1)]]⟩ : Table).rows = .ok fr)
    ∧ (∃ res, execute_query ⟨some ["a"], none, some ⟨some "a", some "ASC"⟩,
        some (some 1)⟩ ⟨["a"], [[("a", Val.vNum 1)]]⟩ = .ok res) :=
  ⟨query_shape_errors_vs_data_leniency.1
      ⟨none, none, some ⟨none, some "ASC"⟩, none⟩ ⟨["a"], [[("a", Val.vNum 1)]]⟩
      [[("a", Val.vNum 1)]] ⟨none, some "ASC"⟩ rfl rfl
      (Or.inl ⟨rfl, by decide⟩),
   query_shape_errors_vs_data_leniency.2.1
      ⟨none, some [("ghost", .scalar (.vStr "x")),
                   ("a_gt", .scalar (.vNum 0)),
                   ("a_contains", .scalar (.vStr "q")),
                   ("a_in", .arr [.vNum 1]),
                   ("logical_operator", .scalar (.vStr "OR"))], none, none⟩
      ⟨["a"], [[("a", Val.vNum 1)]]⟩ _ rfl (by decide),
   query_shape_errors_vs_data_leniency.2.2
      ⟨some ["a"], none, some ⟨some "a", some "ASC"⟩, some (some 1)⟩
      ⟨["a"], [[("a", Val.vNum 1)]]⟩ [[("a", Val.vNum 1)]] [[("a", Val.vNum 1)]]
      [] rfl rfl⟩

/-- C7.  When `orderBy` names a column absent from the table's column set
(with `column` and `direction` both present), the ordering stage records
exactly the non-fatal warning and passes the filtered rows through
untouched, for any row list; consequently execute_query behaves exactly as
if the query had no `orderBy` at all, except for the recorded warning — no
exception, no dropped rows, filter-stage order preserved. -/
theorem orderby_missing_column_warns_and_skips
    (q : Query) (t : Table) (col dir : String)
    (ho : q.orderBy = some ⟨some col, some dir⟩)
    (hnc : t.cols.contains col = false) :
    (∀ rows : List Row, stageOrder q t rows = .ok ([warnMsg col], rows))
    ∧ execute_query q t =
      (execute_query { q with orderBy := none } t).map
        (fun p => ([warnMsg col], p.2)) := by
  have hm : col ∉ t.cols := by
    intro hmem
    have hc : t.cols.contains col = true := by simp [List.contains, hmem]
    rw [hc] at hnc
    cases hnc
  have horder : ∀ rows : List Row,
      stageOrder q t rows = .ok ([warnMsg col], rows) := by
    intro rows
    simp [stageOrder, ho, hm]
  refine ⟨horder, ?_⟩
  cases hf : stageFilter q t.rows with
  | error e =>
    have hf' : stageFilter { q with orderBy := none } t.rows = .error e := hf
    simp [execute_query, hf, hf', Except.map]
  | ok fr =>
    have hf' : stageFilter { q with orderBy := none } t.rows = .ok fr := hf
    have hp : stageProject { q with orderBy := none } fr = stageProject q fr := rfl
    have hl : ∀ rows, stageLimit { q with orderBy := none } rows =
        stageLimit q rows := fun _ => rfl
    have ho' : stageOrder { q with orderBy := none } t fr = .ok ([], fr) := rfl
    simp [execute_query, hf, hf', horder fr, ho', Except.map, hp, hl]

/-- Concrete instance of C7: sorting by the non-existent column `z` only
records the warning and leaves the single row in place. -/
theorem orderby_missing_column_warns_and_skips_witness :
    stageOrder ⟨none, none, some ⟨some "z", some "ASC"⟩, none⟩
        ⟨["a"], [[("a", Val.vNum 1)]]⟩ [[("a", Val.vNum 1)]] =
      .ok ([warnMsg "z"], [[("a", Val.vNum 1)]])
    ∧ execute_query ⟨none, none, some ⟨some "z", some "ASC"⟩, none⟩
        ⟨["a"], [[("a", Val.vNum 1)]]⟩ =
      (execute_query ⟨none, none, none, none⟩ ⟨["a"], [[("a", Val.vNum 1)]]⟩).map
        (fun p => ([warnMsg "z"], p.2)) :=
  ⟨(orderby_missing_column_warns_and_skips
      ⟨none, none, some ⟨some "z", some "ASC"⟩, none⟩
      ⟨["a"], [[("a", Val.vNum 1)]]⟩ "z" "ASC" rfl rfl).1 [[("a", Val.vNum 1)]],
   (orderby_missing_column_warns_and_skips
      ⟨none, none, some ⟨some "z", some "ASC"⟩, none⟩
      ⟨["a"], [[("a", Val.vNum 1)]]⟩ "z" "ASC" rfl rfl).2⟩

/-! ### Sorting lemmas -/

theorem charsLt_irrefl : ∀ l : List Char, charsLt l l = false := by
  intro l
  induction l with
  | nil => rfl
  | cons a as ih => simp [charsLt, Nat.lt_irrefl, ih]

theorem charsLt_asymm :
    ∀ a b : List Char, charsLt a b = true → charsLt b a = false := by
  intro a
  induction a with
  | nil =>
    intro b h
    cases b with
    | nil => cases h
    | cons y ys => rfl
  | cons x xs ih =>
    intro b h
    cases b with
    | nil => cases h
    | cons y ys =>
      rw [charsLt] at h ⊢
      by_cases h1 : x.toNat < y.toNat
      · have h2 : ¬ y.toNat < x.toNat := by omega
        rw [if_neg h2, if_pos h1]
      · rw [if_neg h1] at h
        by_cases h2 : y.toNat < x.toNat
        · rw [if_pos h2] at h; cases h
        · rw [if_neg h2] at h
          rw [if_neg h2, if_neg h1]
          exact ih ys h

theorem charsLt_neg_trans :
    ∀ a b c : List Char, charsLt b a = false → charsLt c b = false →
      charsLt c a = false := by
  intro a
  induction a with
  | nil =>
    intro b c _ _
    cases c <;> rfl
  | cons x xs ih =>
    intro b c h1 h2
    cases b with
    | nil => cases h1
    | cons y ys =>
      cases c with
      | nil => cases h2
      | cons z zs =>
        rw [charsLt] at h1 h2 ⊢
        by_cases hyx : y.toNat < x.toNat
        · rw [if_pos hyx] at h1; cases h1
        · by_cases hzy : z.toNat < y.toNat
          · rw [if_pos hzy] at h2; cases h2
          · by_cases hzx : z.toNat < x.toNat
            · exact absurd hzx (by omega)
            · rw [if_neg hzx]
              by_cases hxz : x.toNat < z.toNat
              · rw [if_pos hxz]
              · rw [if_neg hxz]
                by_cases hxy : x.toNat < y.toNat
                · exact absurd (show x.toNat < z.toNat by omega) hxz
                · rw [if_neg hyx, if_neg hxy] at h1
                  by_cases hyz : y.toNat < z.toNat
                  · exact absurd (show x.toNat < z.toNat by omega) hxz
                  · rw [if_neg hzy, if_neg hyz] at h2
                    exact ih ys zs h1 h2

theorem keyLtAsc_irrefl : ∀ o : Option Val, keyLtAsc o o = false := by
  intro o
  cases o with
  | none => rfl
  | some v =>
    cases v with
    | vStr s => exact charsLt_irrefl s.data
    | vNum n => simp [keyLtAsc]
    | vBool b => simp [keyLtAsc]

/-- On two numeric keys `keyLtAsc` is the numeric comparison. -/
theorem keyLtAsc_num (x y : Val) (hx : isNum x = true) (hy : isNum y = true) :
    keyLtAsc (some x) (some y) = decide (numOf x < numOf y) := by
  cases x <;> cases y <;> simp_all [keyLtAsc, isNum]

theorem keyLtAsc_asymm :
    ∀ a b : Option Val, keyLtAsc a b = true → keyLtAsc b a = false := by
  intro a b h
  cases a with
  | none => cases h
  | some x =>
    cases b with
    | none => cases x <;> cases h
    | some y =>
      by_cases hx : isNum x = true
      · by_cases hy : isNum y = true
        · rw [keyLtAsc_num x y hx hy, decide_eq_true_eq] at h
          rw [keyLtAsc_num y x hy hx, decide_eq_false_iff_not]
          omega
        · -- y is a string, x numeric: both directions are `false`
          cases y with
          | vStr s =>
            cases x with
            | vStr s2 => cases hx
            | vNum n => cases h
            | vBool b2 => cases h
          | vNum n => exact absurd rfl hy
          | vBool b2 => exact absurd rfl hy
      · cases x with
        | vNum n => exact absurd rfl hx
        | vBool b2 => exact absurd rfl hx
        | vStr s =>
          cases y with
          | vStr s2 => exact charsLt_asymm s.data s2.data h
          | vNum n => cases h
          | vBool b2 => cases h

theorem keyLtAsc_neg_trans_num :
    ∀ a b c : Option Val, kindNum a = true → kindNum b = true →
      kindNum c = true → keyLtAsc b a = false → keyLtAsc c b = false →
      keyLtAsc c a = false := by
  intro a b c ha hb hc h1 h2
  cases a with
  | none => cases ha
  | some x =>
    cases b with
    | none => cases hb
    | some y =>
      cases c with
      | none => cases hc
      | some z =>
        have ha' : isNum x = true := ha
        have hb' : isNum y = true := hb
        have hc' : isNum z = true := hc
        rw [keyLtAsc_num y x hb' ha', decide_eq_false_iff_not] at h1
        rw [keyLtAsc_num z y hc' hb', decide_eq_false_iff_not] at h2
        rw [keyLtAsc_num z x hc' ha', decide_eq_false_iff_not]
        omega

theorem keyLtAsc_neg_trans_str :
    ∀ a b c : Option Val, kindStr a = true → kindStr b = true →
      kindStr c = true → keyLtAsc b a = false → keyLtAsc c b = false →
      keyLtAsc c a = false := by
  intro a b c ha hb hc h1 h2
  cases a with
  | none => cases ha
  | some x =>
    cases x with
    | vNum n => cases ha
    | vBool b2 => cases ha
    | vStr sa =>
      cases b with
      | none => cases hb
      | some y =>
        cases y with
        | vNum n => cases hb
        | vBool b2 => cases hb
        | vStr sb =>
          cases c with
          | none => cases hc
          | some z =>
            cases z with
            | vNum n => cases hc
            | vBool b2 => cases hc
            | vStr sc => exact charsLt_neg_trans sa.data sb.data sc.data h1 h2

theorem mem_insertS {α : Type} (lt : α → α → Bool) (x : α) :
    ∀ (l : List α) (a : α), a ∈ insertS lt x l ↔ a = x ∨ a ∈ l := by
  intro l
  induction l with
  | nil => intro a; simp [insertS]
  | cons y ys ih =>
    intro a
    rw [insertS]
    by_cases h : lt y x = true
    · rw [if_pos h]
      simp only [List.mem_cons, ih]
      tauto
    · rw [if_neg h]
      simp only [List.mem_cons]

theorem mem_isortS {α : Type} (lt : α → α → Bool) :
    ∀ (l : List α) (a : α), a ∈ isortS lt l ↔ a ∈ l := by
  intro l
  induction l with
  | nil => intro a; rfl
  | cons x xs ih =>
    intro a
    rw [isortS, mem_insertS, ih, List.mem_cons]

theorem filter_insertS_pos {α : Type} (lt : α → α → Bool) (p : α → Bool)
    (x : α) :
    ∀ l : List α, p x = true → (∀ y ∈ l, p y = true → lt y x = false) →
      (insertS lt x l).filter p = x :: l.filter p := by
  intro l
  induction l with
  | nil => intro hp _; simp [insertS, hp]
  | cons y ys ih =>
    intro hp hl
    rw [insertS]
    by_cases h : lt y x = true
    · rw [if_pos h]
      have hpy : p y = false := by
        cases hpy : p y with
        | true =>
          have := hl y (List.mem_cons_self _ _) hpy
          rw [this] at h
          cases h
        | false => rfl
      rw [List.filter_cons, hpy]
      simp only [Bool.false_eq_true, if_false]
      rw [ih hp (fun z hz hpz => hl z (List.mem_cons.mpr (Or.inr hz)) hpz)]
      rw [List.filter_cons, hpy]
      simp
    · rw [if_neg h]
      rw [List.filter_cons, hp]
      simp

theorem filter_insertS_neg {α : Type} (lt : α → α → Bool) (p : α → Bool)
    (x : α) :
    ∀ l : List α, p x = false → (insertS lt x l).filter p = l.filter p := by
  intro l
  induction l with
  | nil => intro hp; simp [insertS, hp]
  | cons y ys ih =>
    intro hp
    rw [insertS]
    by_cases h : lt y x = true
    · rw [if_pos h, List.filter_cons, List.filter_cons, ih hp]
    · rw [if_neg h, List.filter_cons, hp]
      simp

/-- Stability of the insertion sort: filtering by any predicate that is
`lt`-incomparable on its own fibre is unchanged by sorting.  Instantiated
with "has sort key `k`", this says rows with equal keys keep their relative
order. -/
theorem filter_isortS {α : Type} (lt : α → α → Bool) (p : α → Bool)
    (hcompat : ∀ a b : α, p a = true → p b = true → lt a b = false) :
    ∀ l : List α, (isortS lt l).filter p = l.filter p := by
  intro l
  induction l with
  | nil => rfl
  | cons x xs ih =>
    rw [isortS]
    cases hp : p x with
    | true =>
      rw [filter_insertS_pos lt p x (isortS lt xs) hp
        (fun y _ hpy => hcompat y x hpy hp), ih, List.filter_cons, hp]
      simp
    | false =>
      rw [filter_insertS_neg lt p x (isortS lt xs) hp, ih, List.filter_cons, hp]
      simp

theorem insertS_pairwise {α : Type} (lt : α → α → Bool) (x : α) :
    ∀ l : List α,
      List.Pairwise (fun a b => lt b a = false) l →
      (∀ b ∈ l, lt b x = true → lt x b = false) →
      (∀ b ∈ l, ∀ c ∈ l, lt b x = false → lt c b = false → lt c x = false) →
      List.Pairwise (fun a b => lt b a = false) (insertS lt x l) := by
  intro l
  induction l with
  | nil => intro _ _ _; simp [insertS]
  | cons y ys ih =>
    intro hp hasym hneg
    obtain ⟨hy, hys⟩ := List.pairwise_cons.mp hp
    rw [insertS]
    by_cases h : lt y x = true
    · rw [if_pos h]
      refine List.pairwise_cons.mpr ⟨?_, ?_⟩
      · intro z hz
        rcases (mem_insertS lt x ys z).mp hz with rfl | hzys
        · exact hasym y (List.mem_cons_self _ _) h
        · exact hy z hzys
      · exact ih hys
          (fun b hb => hasym b (List.mem_cons.mpr (Or.inr hb)))
          (fun b hb c hc => hneg b (List.mem_cons.mpr (Or.inr hb)) c
            (List.mem_cons.mpr (Or.inr hc)))
    · rw [if_neg h]
      have h' : lt y x = false := by
        cases hb : lt y x with
        | true => exact absurd hb h
        | false => rfl
      refine List.pairwise_cons.mpr ⟨?_, hp⟩
      intro z hz
      rcases List.mem_cons.mp hz with rfl | hzys
      · exact h'
      · exact hneg y (List.mem_cons_self _ _) z
          (List.mem_cons.mpr (Or.inr hzys)) h' (hy z hzys)

/-- Sortedness of the insertion sort: no later element is strictly below an
earlier one, provided `lt` is asymmetric and negatively transitive on the
list's elements. -/
theorem isortS_pairwise {α : Type} (lt : α → α → Bool) :
    ∀ l : List α,
      (∀ b ∈ l, ∀ c ∈ l, lt b c = true → lt c b = false) →
      (∀ a ∈ l, ∀ b ∈ l, ∀ c ∈ l, lt b a = false → lt c b = false →
        lt c a = false) →
      List.Pairwise (fun a b => lt b a = false) (isortS lt l) := by
  intro l
  induction l with
  | nil => intro _ _; exact List.Pairwise.nil
  | cons x xs ih =>
    intro hasym hneg
    rw [isortS]
    apply insertS_pairwise
    · exact ih
        (fun b hb c hc => hasym b (List.mem_cons.mpr (Or.inr hb)) c
          (List.mem_cons.mpr (Or.inr hc)))
        (fun a ha b hb c hc => hneg a (List.mem_cons.mpr (Or.inr ha)) b
          (List.mem_cons.mpr (Or.inr hb)) c (List.mem_cons.mpr (Or.inr hc)))
    · intro b hb hlt
      exact hasym b
        (List.mem_cons.mpr (Or.inr ((mem_isortS lt xs b).mp hb))) x
        (List.mem_cons_self _ _) hlt
    · intro b hb c hc hbx hcb
      exact hneg x (List.mem_cons_self _ _) b
        (List.mem_cons.mpr (Or.inr ((mem_isortS lt xs b).mp hb))) c
        (List.mem_cons.mpr (Or.inr ((mem_isortS lt xs c).mp hc))) hbx hcb

/-- The row order used by the sort is asymmetric outright. -/
theorem rowLt_asymm (col : String) (desc : Bool) (a b : Row)
    (h : rowLt col desc a b = true) : rowLt col desc b a = false := by
  cases desc with
  | false => exact keyLtAsc_asymm _ _ h
  | true => exact keyLtAsc_asymm _ _ h

/-- C5 amended.  On a sort column whose keys are mutually comparable (all
present-and-numeric or all present-and-string), `results.sort` succeeds and
is the stable sort: (i) it returns exactly the stable insertion sort by the
direction's strict key order, (ii) for every key value the rows carrying it
keep their relative filter-stage order — in both `ASC` and `DESC` — and
(iii) the output has no inversion with respect to the direction's strict
order (`DESC` is the descending ordering, not the literal reverse of the
ascending output, which would flip tied rows).  The second part places the
sort inside execute_query's ordering stage when the column exists. -/
theorem orderby_stable_sort_semantics :
    (∀ (rows : List Row) (col : String) (desc : Bool),
      sortableKeys (rows.map (fun r => rowGet r col)) = true →
      pySort rows col desc = .ok (isortS (rowLt col desc) rows)
      ∧ (∀ k : Option Val,
          (isortS (rowLt col desc) rows).filter
              (fun r => decide (rowGet r col = k)) =
            rows.filter (fun r => decide (rowGet r col = k)))
      ∧ List.Pairwise (fun a b => rowLt col desc b a = false)
          (isortS (rowLt col desc) rows))
    ∧ (∀ (q : Query) (t : Table) (col dir : String) (rows : List Row),
      q.orderBy = some ⟨some col, some dir⟩ → t.cols.contains col = true →
      stageOrder q t rows =
        (pySort rows col (dir == "DESC")).map
          (fun rs => (([] : List String), rs))) := by
  constructor
  · intro rows col desc hs
    refine ⟨?_, ?_, ?_⟩
    · rw [pySort]
      by_cases hlen : rows.length ≤ 1
      · rw [if_pos hlen]
        cases rows with
        | nil => rfl
        | cons r rs =>
          cases rs with
          | nil => rfl
          | cons r2 rs2 => simp at hlen
      · rw [if_neg hlen, if_pos hs]
    · intro k
      apply filter_isortS
      intro a b hpa hpb
      rw [decide_eq_true_eq] at hpa hpb
      cases desc with
      | false =>
        show keyLtAsc (rowGet a col) (rowGet b col) = false
        rw [hpa, hpb]
        exact keyLtAsc_irrefl k
      | true =>
        show keyLtAsc (rowGet b col) (rowGet a col) = false
        rw [hpa, hpb]
        exact keyLtAsc_irrefl k
    · rw [sortableKeys, Bool.or_eq_true] at hs
      have hkinds : (∀ r ∈ rows, kindNum (rowGet r col) = true) ∨
          (∀ r ∈ rows, kindStr (rowGet r col) = true) := by
        rcases hs with hs | hs
        · exact Or.inl (fun r hr =>
            List.all_eq_true.mp hs _ (List.mem_map_of_mem _ hr))
        · exact Or.inr (fun r hr =>
            List.all_eq_true.mp hs _ (List.mem_map_of_mem _ hr))
      apply isortS_pairwise
      · intro b _ c _ h
        exact rowLt_asymm col desc b c h
      · intro a ha b hb c hc h1 h2
        rcases hkinds with hk | hk
        · cases desc with
          | false =>
            show keyLtAsc (rowGet c col) (rowGet a col) = false
            exact keyLtAsc_neg_trans_num (rowGet a col) (rowGet b col)
              (rowGet c col) (hk a ha) (hk b hb) (hk c hc)
              (show keyLtAsc (rowGet b col) (rowGet a col) = false from h1)
              (show keyLtAsc (rowGet c col) (rowGet b col) = false from h2)
          | true =>
            show keyLtAsc (rowGet a col) (rowGet c col) = false
            exact keyLtAsc_neg_trans_num (rowGet c col) (rowGet b col)
              (rowGet a col) (hk c hc) (hk b hb) (hk a ha)
              (show keyLtAsc (rowGet b col) (rowGet c col) = false from h2)
              (show keyLtAsc (rowGet a col) (rowGet b col) = false from h1)
        · cases desc with
          | false =>
            show keyLtAsc (rowGet c col) (rowGet a col) = false
            exact keyLtAsc_neg_trans_str (rowGet a col) (rowGet b col)
              (rowGet c col) (hk a ha) (hk b hb) (hk c hc)
              (show keyLtAsc (rowGet b col) (rowGet a col) = false from h1)
              (show keyLtAsc (rowGet c col) (rowGet b col) = false from h2)
          | true =>
            show keyLtAsc (rowGet a col) (rowGet c col) = false
            exact keyLtAsc_neg_trans_str (rowGet c col) (rowGet b col)
              (rowGet a col) (hk c hc) (hk b hb) (hk a ha)
              (show keyLtAsc (rowGet b col) (rowGet c col) = false from h2)
              (show keyLtAsc (rowGet a col) (rowGet b col) = false from h1)
  · intro q t col dir rows ho hcont
    have hmem : col ∈ t.cols := by
      rw [List.contains_eq_any_beq] at hcont
      obtain ⟨x, hx, hbeq⟩ := List.any_eq_true.mp hcont
      rw [eq_of_beq hbeq]
      exact hx
    cases hp : pySort rows col (dir == "DESC") with
    | ok rs => simp [stageOrder, ho, hcont, hmem, hp, Except.map]
    | error e => simp [stageOrder, ho, hcont, hmem, hp, Except.map]

/-- Concrete instance of C5 (amended): sorting two numeric-keyed rows
ascending succeeds, is stable, has no inversion, and is what the ordering
stage runs for an existing column. -/
theorem orderby_stable_sort_semantics_witness :
    (pySort [[("k", Val.vNum 2)], [("k", Val.vNum 1)]] "k" false =
      .ok (isortS (rowLt "k" false) [[("k", Val.vNum 2)], [("k", Val.vNum 1)]])
     ∧ (∀ k : Option Val,
        (isortS (rowLt "k" false)
            [[("k", Val.vNum 2)], [("k", Val.vNum 1)]]).filter
            (fun r => decide (rowGet r "k" = k)) =
          ([[("k", Val.vNum 2)], [("k", Val.vNum 1)]] : List Row).filter
            (fun r => decide (rowGet r "k" = k)))
     ∧ List.Pairwise (fun a b => rowLt "k" false b a = false)
        (isortS (rowLt "k" false) [[("k", Val.vNum 2)], [("k", Val.vNum 1)]]))
    ∧ stageOrder ⟨none, none, some ⟨some "k", some "DESC"⟩, none⟩
        ⟨["k"], [[("k", Val.vNum 2)], [("k", Val.vNum 1)]]⟩
        [[("k", Val.vNum 2)], [("k", Val.vNum 1)]] =
      (pySort [[("k", Val.vNum 2)], [("k", Val.vNum 1)]] "k" ("DESC" == "DESC")).map
        (fun rs => (([] : List String), rs)) :=
  ⟨orderby_stable_sort_semantics.1
      [[("k", Val.vNum 2)], [("k", Val.vNum 1)]] "k" false (by decide),
   orderby_stable_sort_semantics.2
      ⟨none, none, some ⟨some "k", some "DESC"⟩, none⟩
      ⟨["k"], [[("k", Val.vNum 2)], [("k", Val.vNum 1)]]⟩ "k" "DESC"
      [[("k", Val.vNum 2)], [("k", Val.vNum 1)]] rfl (by decide)⟩
